import Mathlib

/-!
# Verification of `aiida_yambo_wannier90/calculations/kmesh.py`

Shallow embedding of the pure computational core of the k-mesh module:

* `kmapper` — the K-point Correspondence Mapper (source lines 44–89).
  Fractional k-point coordinates (Python floats in the source) are modelled
  as rationals `ℚ`; `np.around(·, decimals=5)` is modelled by `around5`.
* `find_commensurate_integers` — the Mesh Commensuration Solver (source
  lines 92–221).  Python integers are modelled as `ℕ` (all values reachable
  from the claims' input ranges are non-negative); a Python
  `ZeroDivisionError` raised by the real division `dense / coarse` is
  modelled by an `Option` result (`none` = uncaught exception).  The
  `debug_plot` parameter only produces plots and never affects the returned
  value, so it is omitted from the embedding.
* `find_commensurate_meshes` — the Mesh Commensuration Orchestrator (source
  lines 224–265), modelled on the integer triples it passes to the Solver;
  the AiiDA `KpointsData` wrapping and the `get_mesh_from_kpoints`
  extraction are external collaborators outside the core.
-/

namespace Kmesh

/-- A k-point in fractional (crystal) coordinates; Python float triples are
modelled as rational triples. -/
abbrev Point := ℚ × ℚ × ℚ

/-- `opt = np.array([0, 1, -1])` (source line 76): the admissible component
differences for periodic equivalence. -/
def opt : List ℚ := [0, 1, -1]

/-- `np.around(x, decimals=5)` on an exactly-representable value: round
`x * 10^5` to the nearest integer and divide back. -/
def around5 (x : ℚ) : ℚ := ((round (x * 100000) : ℤ) : ℚ) / 100000

/-- Componentwise difference `q = i - j` (source line 81). -/
def psub (i j : Point) : Point := (i.1 - j.1, i.2.1 - j.2.1, i.2.2 - j.2.2)

/-- Componentwise `np.around(q, decimals=5)` (source line 82). -/
def paround (q : Point) : Point := (around5 q.1, around5 q.2.1, around5 q.2.2)

/-- `kmapper` (source lines 44–89): for each coarse point, scan the dense
points keeping a 1-based counter `count`; record `count` whenever every
rounded component of the difference lies in `opt`; finally pair each recorded
position with the band range. -/
def kmapper (coarse_mesh dense_mesh : List Point) (start_band end_band : ℤ) :
    List (ℕ × ℕ × ℤ × ℤ) :=
  let k_list : List ℕ :=
    coarse_mesh.flatMap fun i =>
      dense_mesh.enum.filterMap fun cj =>
        let q := paround (psub i cj.2)
        if q.1 ∈ opt ∧ q.2.1 ∈ opt ∧ q.2.2 ∈ opt then some (cj.1 + 1) else none
  k_list.map fun c => (c, c, start_band, end_band)

/-- `math.ceil(a / b)` for natural `a`, `b` as computed at source line 170;
Python raises `ZeroDivisionError` on `b = 0`, modelled by `none`. -/
def pyCeilDiv (a b : ℕ) : Option ℕ :=
  if b = 0 then none else some ((a + b - 1) / b)

/-- The exhaustive double loop of the Solver (source lines 187–197):
`for new_dense in range(dense, coarse * khigh)`, with
`lim = new_dense // klow + 1` when `include_identical` else
`new_dense // klow` (`klow = 1`, source line 169), collect every
`(new_dense, new_coarse)` with `new_dense % new_coarse == 0` for
`new_coarse in range(coarse, lim)`. -/
def loopSolutions (dense coarse khigh : ℕ) (include_identical : Bool) :
    List (ℕ × ℕ) :=
  (List.range' dense (coarse * khigh - dense)).flatMap fun new_dense =>
    let klow := 1
    let lim := if include_identical then new_dense / klow + 1 else new_dense / klow
    (List.range' coarse (lim - coarse)).filterMap fun new_coarse =>
      if new_dense % new_coarse = 0 then some (new_dense, new_coarse) else none

/-- The full candidate list `valid_solutions` (source lines 176–197): the
baseline `(coarse * khigh, coarse)` first, then `(dense, dense)` when
`include_identical`, then the loop candidates in iteration order. -/
def validSolutions (dense coarse khigh : ℕ) (include_identical : Bool) :
    List (ℕ × ℕ) :=
  (coarse * khigh, coarse) ::
    ((if include_identical then [(dense, dense)] else []) ++
      loopSolutions dense coarse khigh include_identical)

/-- `cost(d, c) = d ** 1.0 + c ** 1.0` (source lines 202–206): with both
scaling exponents fixed at `1.0` the cost is exactly `d + c`. -/
def cost (p : ℕ × ℕ) : ℕ := p.1 + p.2

/-- `valid_solutions[np.argmin(costs)]` (source lines 206–209): the
first-seen candidate of minimum cost; `none` on an empty list (where
`np.argmin` would raise). -/
def pickFirstMin : List (ℕ × ℕ) → Option (ℕ × ℕ)
  | [] => none
  | x :: xs => some (xs.foldl (fun best p => if cost p < cost best then p else best) x)

/-- The `dense > coarse` branch of the Solver (source lines 165–221):
compute `khigh = math.ceil(dense / coarse)` (raising on `coarse = 0`),
build the candidate list and select the first-seen minimal-cost pair. -/
def searchBranch (dense coarse : ℕ) (include_identical : Bool) :
    Option (ℕ × ℕ) :=
  (pyCeilDiv dense coarse).bind fun khigh =>
    pickFirstMin (validSolutions dense coarse khigh include_identical)

/-- `find_commensurate_integers` (source lines 92–221).  If
`dense <= coarse`: return `(coarse, coarse)` when `include_identical`, else
recurse on `(coarse + 1, coarse)` with `include_identical = False`.
Otherwise run the exhaustive search branch. -/
def find_commensurate_integers (dense coarse : ℕ) (include_identical : Bool) :
    Option (ℕ × ℕ) :=
  if dense ≤ coarse then
    if include_identical then some (coarse, coarse)
    else find_commensurate_integers (coarse + 1) coarse false
  else
    searchBranch dense coarse include_identical
termination_by (if dense ≤ coarse then 1 else 0)
decreasing_by
  have h1 : ¬ (coarse + 1 ≤ coarse) := by omega
  simp [h1, *]

/-- `find_commensurate_meshes` (source lines 224–265): invoke the Solver on
each of the three axis pairs with the default `include_identical = True` and
reassemble the two mesh triples. -/
def find_commensurate_meshes (dense coarse : ℕ × ℕ × ℕ) :
    Option ((ℕ × ℕ × ℕ) × (ℕ × ℕ × ℕ)) :=
  (find_commensurate_integers dense.1 coarse.1 true).bind fun x =>
    (find_commensurate_integers dense.2.1 coarse.2.1 true).bind fun y =>
      (find_commensurate_integers dense.2.2 coarse.2.2 true).bind fun z =>
        some ((x.1, y.1, z.1), (x.2, y.2, z.2))

/-!
## Helper lemmas
-/

/-- For `c ≥ 1`, the natural-number ceiling `(d + c - 1) / c` of `d / c`
satisfies `d ≤ c * ceil ≤ d + c - 1`. -/
theorem ceil_bounds (d c : ℕ) (hc : 1 ≤ c) :
    d ≤ c * ((d + c - 1) / c) ∧ c * ((d + c - 1) / c) ≤ d + c - 1 := by
  have h2 : (d + c - 1) % c < c := Nat.mod_lt _ hc
  have h1 := Nat.div_add_mod (d + c - 1) c
  generalize c * ((d + c - 1) / c) = t at h1 ⊢
  omega

/-- Every candidate in `valid_solutions` is divisible, componentwise at
least as large as the inputs, and its first component is at most the
baseline `coarse * khigh`. -/
theorem mem_validSolutions (d c k : ℕ) (ii : Bool) (hcd : c < d)
    (hk : d ≤ c * k) :
    ∀ p ∈ validSolutions d c k ii,
      p.1 % p.2 = 0 ∧ d ≤ p.1 ∧ c ≤ p.2 ∧ p.1 ≤ c * k := by
  intro p hp
  simp only [validSolutions, List.mem_cons, List.mem_append] at hp
  rcases hp with h | h | h
  · subst h
    exact ⟨Nat.mul_mod_right c k, hk, le_refl c, le_refl _⟩
  · cases ii with
    | false => simp at h
    | true =>
      simp only [if_true] at h
      rw [List.mem_singleton] at h
      subst h
      exact ⟨Nat.mod_self d, le_refl d, le_of_lt hcd, hk⟩
  · simp only [loopSolutions, List.mem_flatMap, List.mem_filterMap] at h
    obtain ⟨nd, hnd, nc, hnc, hif⟩ := h
    rw [List.mem_range'_1] at hnd hnc
    by_cases hmod : nd % nc = 0
    · rw [if_pos hmod] at hif
      cases hif
      exact ⟨hmod, hnd.1, hnc.1, by omega⟩
    · rw [if_neg hmod] at hif
      cases hif

/-- The fold used by `pickFirstMin` returns either its accumulator or a
list element. -/
theorem foldl_pick_mem (xs : List (ℕ × ℕ)) :
    ∀ a : ℕ × ℕ,
      xs.foldl (fun best p => if cost p < cost best then p else best) a = a ∨
      xs.foldl (fun best p => if cost p < cost best then p else best) a ∈ xs := by
  induction xs with
  | nil => intro a; left; rfl
  | cons x xs ih =>
    intro a
    simp only [List.foldl_cons]
    rcases ih (if cost x < cost a then x else a) with h | h
    · rw [h]
      by_cases hx : cost x < cost a
      · right
        rw [if_pos hx]
        exact List.mem_cons_self x xs
      · left
        rw [if_neg hx]
    · right
      exact List.mem_cons_of_mem x h

/-- The candidate selected by `pickFirstMin` belongs to the candidate
list. -/
theorem pickFirstMin_mem (l : List (ℕ × ℕ)) (p : ℕ × ℕ)
    (h : pickFirstMin l = some p) : p ∈ l := by
  cases l with
  | nil => simp [pickFirstMin] at h
  | cons x xs =>
    simp only [pickFirstMin, Option.some.injEq] at h
    rcases foldl_pick_mem xs x with h2 | h2
    · rw [h] at h2
      rw [h2]
      exact List.mem_cons_self x xs
    · rw [h] at h2
      exact List.mem_cons_of_mem x h2

/-- On `1 ≤ coarse < dense` the search branch succeeds and returns a
divisible pair, componentwise at least as large as the inputs and with
first component bounded by `coarse * ceil(dense / coarse)`. -/
theorem searchBranch_spec (d c : ℕ) (ii : Bool) (hc : 1 ≤ c) (hcd : c < d) :
    ∃ p, searchBranch d c ii = some p ∧ p.1 % p.2 = 0 ∧ d ≤ p.1 ∧ c ≤ p.2 ∧
      p.1 ≤ c * ((d + c - 1) / c) := by
  have hk := (ceil_bounds d c hc).1
  have hc0 : ¬ (c = 0) := by omega
  obtain ⟨p, hp⟩ : ∃ p, pickFirstMin (validSolutions d c ((d + c - 1) / c) ii) = some p :=
    ⟨_, rfl⟩
  refine ⟨p, ?_,
    mem_validSolutions d c ((d + c - 1) / c) ii hcd hk p (pickFirstMin_mem _ _ hp)⟩
  simp only [searchBranch, pyCeilDiv, if_neg hc0, Option.bind_some]
  exact hp

/-- Unfolding: on `dense > coarse` the Solver is the search branch. -/
theorem find_eq_search (d c : ℕ) (ii : Bool) (h : ¬ (d ≤ c)) :
    find_commensurate_integers d c ii = searchBranch d c ii := by
  unfold find_commensurate_integers
  rw [if_neg h]

/-- Unfolding: on `dense ≤ coarse` with `include_identical` the Solver
returns `(coarse, coarse)`. -/
theorem find_le_true (d c : ℕ) (h : d ≤ c) :
    find_commensurate_integers d c true = some (c, c) := by
  unfold find_commensurate_integers
  rw [if_pos h]
  simp

/-- Unfolding: on `dense ≤ coarse` without `include_identical` the Solver
makes exactly one recursive call, landing in the search branch at
`(coarse + 1, coarse)`. -/
theorem find_le_false (d c : ℕ) (h : d ≤ c) :
    find_commensurate_integers d c false = searchBranch (c + 1) c false := by
  unfold find_commensurate_integers
  rw [if_pos h]
  simp only [Bool.false_eq_true, if_false]
  exact find_eq_search (c + 1) c false (by omega)

/-- `np.around(0, 5) = 0`. -/
theorem around5_zero : around5 0 = 0 := by
  norm_num [around5]

/-- `np.around(-1, 5) = -1`. -/
theorem around5_neg_one : around5 (-1) = -1 := by
  norm_num [around5, round_eq]

/-- `np.around(-1/2, 5) = -1/2`. -/
theorem around5_neg_half : around5 (-(1 / 2)) = -(1 / 2) := by
  norm_num [around5, round_eq]

/-!
## Claim theorems
-/

/-- Claim C1: for every pair of inputs with `dense ≥ 1` and `coarse ≥ 1`,
and for either value of `include_identical`, the Solver returns a pair
`(newDense, newCoarse)` with `newDense mod newCoarse = 0`. -/
theorem find_commensurate_integers_divisible (dense coarse : ℕ) (ii : Bool)
    (hd : 1 ≤ dense) (hc : 1 ≤ coarse) :
    ∃ p, find_commensurate_integers dense coarse ii = some p ∧ p.1 % p.2 = 0 := by
  by_cases h : dense ≤ coarse
  · cases ii with
    | true => exact ⟨(coarse, coarse), find_le_true dense coarse h, Nat.mod_self coarse⟩
    | false =>
      obtain ⟨p, hp, hmod, -, -, -⟩ :=
        searchBranch_spec (coarse + 1) coarse false hc (Nat.lt_succ_self coarse)
      exact ⟨p, (find_le_false dense coarse h).trans hp, hmod⟩
  · obtain ⟨p, hp, hmod, -, -, -⟩ :=
      searchBranch_spec dense coarse ii hc (by omega)
    exact ⟨p, (find_eq_search dense coarse ii h).trans hp, hmod⟩

/-- Witness for C1 at `(5, 2)` with `include_identical = true`. -/
theorem find_commensurate_integers_divisible_witness :
    ∃ p, find_commensurate_integers 5 2 true = some p ∧ p.1 % p.2 = 0 :=
  find_commensurate_integers_divisible 5 2 true (by decide) (by decide)

/-- Claim C2: for every pair of inputs with `1 ≤ dense ≤ coarse`, the
Solver with `include_identical = true` returns exactly `(coarse, coarse)`. -/
theorem find_commensurate_integers_dense_le_coarse (dense coarse : ℕ)
    (hd : 1 ≤ dense) (hdc : dense ≤ coarse) :
    find_commensurate_integers dense coarse true = some (coarse, coarse) :=
  find_le_true dense coarse hdc

/-- Witness for C2 at `(3, 5)`. -/
theorem find_commensurate_integers_dense_le_coarse_witness :
    find_commensurate_integers 3 5 true = some (5, 5) :=
  find_commensurate_integers_dense_le_coarse 3 5 (by decide) (by decide)

/-- Claim C3: for every pair of inputs with `dense ≥ 1` and `coarse ≥ 1`,
and for either value of `include_identical`, the returned pair is
componentwise at least as large as the corresponding inputs. -/
theorem find_commensurate_integers_monotonic (dense coarse : ℕ) (ii : Bool)
    (hd : 1 ≤ dense) (hc : 1 ≤ coarse) :
    ∃ p, find_commensurate_integers dense coarse ii = some p ∧
      dense ≤ p.1 ∧ coarse ≤ p.2 := by
  by_cases h : dense ≤ coarse
  · cases ii with
    | true => exact ⟨(coarse, coarse), find_le_true dense coarse h, h, le_refl coarse⟩
    | false =>
      obtain ⟨p, hp, -, hd1, hc1, -⟩ :=
        searchBranch_spec (coarse + 1) coarse false hc (Nat.lt_succ_self coarse)
      exact ⟨p, (find_le_false dense coarse h).trans hp, by omega, hc1⟩
  · obtain ⟨p, hp, -, hd1, hc1, -⟩ :=
      searchBranch_spec dense coarse ii hc (by omega)
    exact ⟨p, (find_eq_search dense coarse ii h).trans hp, hd1, hc1⟩

/-- Witness for C3 at `(3, 5)` with `include_identical = false`. -/
theorem find_commensurate_integers_monotonic_witness :
    ∃ p, find_commensurate_integers 3 5 false = some p ∧ 3 ≤ p.1 ∧ 5 ≤ p.2 :=
  find_commensurate_integers_monotonic 3 5 false (by decide) (by decide)

/-- Claim C4, counterexample: for coarse points `[(0,0,0)]` and dense points
`[(0,0,0), (1,0,0), (0.5,0,0)]` the Mapper does NOT return the single entry
`[(1,1,startBand,endBand)]` claimed by the spec: the second dense point also
matches (difference `(-1,0,0)`, a periodic image). -/
theorem kmapper_periodic_image_counterexample :
    kmapper [(0, 0, 0)] [(0, 0, 0), (1, 0, 0), (1 / 2, 0, 0)] 1 2 ≠
      [(1, 1, 1, 2)] := by
  have h : kmapper [(0, 0, 0)] [(0, 0, 0), (1, 0, 0), (1 / 2, 0, 0)] 1 2 =
      [(1, 1, 1, 2), (2, 2, 1, 2)] := by
    simp only [kmapper, List.flatMap_cons, List.flatMap_nil, List.enum,
      List.enumFrom, List.filterMap_cons, List.filterMap_nil, psub, paround]
    norm_num [around5_zero, around5_neg_one, around5_neg_half, opt]
  rw [h]
  simp

/-- Claim C4 (amended): for coarse points `[(0,0,0)]` and dense points
`[(0,0,0), (1,0,0), (0.5,0,0)]` the Mapper (for any `startBand`, `endBand`)
returns exactly two entries, `(1, 1, startBand, endBand)` and
`(2, 2, startBand, endBand)`: dense positions 1 and 2 both match (the second
by the periodic translation `-1`), and the third dense point does not match
(rounded difference `-0.5` is not in the admissible set). -/
theorem kmapper_three_points (s e : ℤ) :
    kmapper [(0, 0, 0)] [(0, 0, 0), (1, 0, 0), (1 / 2, 0, 0)] s e =
      [(1, 1, s, e), (2, 2, s, e)] := by
  simp only [kmapper, List.flatMap_cons, List.flatMap_nil, List.enum,
    List.enumFrom, List.filterMap_cons, List.filterMap_nil, psub, paround]
  norm_num [around5_zero, around5_neg_one, around5_neg_half, opt]

/-- Witness for the amended C4 at band range `(3, 9)`. -/
theorem kmapper_three_points_witness :
    kmapper [(0, 0, 0)] [(0, 0, 0), (1, 0, 0), (1 / 2, 0, 0)] 3 9 =
      [(1, 1, 3, 9), (2, 2, 3, 9)] :=
  kmapper_three_points 3 9

/-- Claim C5: for coarse points `[(0,0,0)]` and dense points
`[(0,0,0), (1,0,0)]` the Mapper (for any `startBand`, `endBand`) returns
exactly two entries recording matched dense positions 1 and 2 in that order:
all periodic images are recorded, with no early exit after the first
match. -/
theorem kmapper_two_points (s e : ℤ) :
    kmapper [(0, 0, 0)] [(0, 0, 0), (1, 0, 0)] s e =
      [(1, 1, s, e), (2, 2, s, e)] := by
  simp only [kmapper, List.flatMap_cons, List.flatMap_nil, List.enum,
    List.enumFrom, List.filterMap_cons, List.filterMap_nil, psub, paround]
  norm_num [around5_zero, around5_neg_one, opt]

/-- Witness for C5 at band range `(3, 7)`. -/
theorem kmapper_two_points_witness :
    kmapper [(0, 0, 0)] [(0, 0, 0), (1, 0, 0)] 3 7 =
      [(1, 1, 3, 7), (2, 2, 3, 7)] :=
  kmapper_two_points 3 7

/-- Claim C6: the Solver applied to `dense = 5`, `coarse = 2` with
`include_identical = true` returns exactly `(6, 2)`, whose cost `6 + 2` is
minimal among all candidate pairs of the run (whose candidate list is
`validSolutions 5 2 3 true`, with `khigh = ceil(5/2) = 3`); the first-seen
minimum is selected. -/
theorem find_commensurate_integers_five_two :
    find_commensurate_integers 5 2 true = some (6, 2) ∧
    ∀ p ∈ validSolutions 5 2 3 true, cost (6, 2) ≤ cost p := by
  constructor
  · rw [find_eq_search 5 2 true (by decide)]
    decide
  · decide

/-- Claim C7, counterexample: the Solver does not fail fast on an axis
count `< 1`: at `dense = 0 < 1`, `coarse = 5` it silently returns
`(5, 5)` instead of raising a validation error. -/
theorem find_commensurate_integers_no_error_on_zero :
    find_commensurate_integers 0 5 true = some (5, 5) :=
  find_le_true 0 5 (by decide)

/-- Claim C7 (amended): the Solver performs no input validation.  With
`include_identical = true` and `dense = 0 < 1` it silently returns
`(coarse, coarse) = (5, 5)`; the only error it can raise on inputs with an
axis count `< 1` is the division-by-zero error from computing the ratio
when `coarse = 0 < dense` (modelled by `none`), which is not a fail-fast
validation of the precondition. -/
theorem find_commensurate_integers_no_validation :
    find_commensurate_integers 0 5 true = some (5, 5) ∧
    ∀ d : ℕ, 1 ≤ d → find_commensurate_integers d 0 true = none := by
  constructor
  · exact find_le_true 0 5 (by decide)
  · intro d hd
    rw [find_eq_search d 0 true (by omega)]
    simp [searchBranch, pyCeilDiv]

/-- Witness for the amended C7 at `dense = 1`, `coarse = 0`. -/
theorem find_commensurate_integers_no_validation_witness :
    find_commensurate_integers 0 5 true = some (5, 5) ∧
    find_commensurate_integers 1 0 true = none :=
  ⟨find_commensurate_integers_no_validation.1,
   find_commensurate_integers_no_validation.2 1 (by decide)⟩

/-- Claim C8: the Orchestrator applies the Solver independently to each of
the three axes with `include_identical = true`; in particular, for the input
meshes `dense = (2,2,2)` and `coarse = (4,4,4)` it returns new dense mesh
`(4,4,4)` and new coarse mesh `(4,4,4)`. -/
theorem find_commensurate_meshes_axiswise :
    (∀ d1 d2 d3 c1 c2 c3 : ℕ, ∀ x y z : ℕ × ℕ,
      find_commensurate_integers d1 c1 true = some x →
      find_commensurate_integers d2 c2 true = some y →
      find_commensurate_integers d3 c3 true = some z →
      find_commensurate_meshes (d1, d2, d3) (c1, c2, c3) =
        some ((x.1, y.1, z.1), (x.2, y.2, z.2))) ∧
    find_commensurate_meshes (2, 2, 2) (4, 4, 4) = some ((4, 4, 4), (4, 4, 4)) := by
  constructor
  · intro d1 d2 d3 c1 c2 c3 x y z h1 h2 h3
    simp [find_commensurate_meshes, h1, h2, h3]
  · have h : find_commensurate_integers 2 4 true = some (4, 4) :=
      find_le_true 2 4 (by decide)
    simp [find_commensurate_meshes, h]

/-- Witness for C8 at meshes `(1,2,3)` and `(5,6,7)`. -/
theorem find_commensurate_meshes_axiswise_witness :
    find_commensurate_meshes (1, 2, 3) (5, 6, 7) = some ((5, 6, 7), (5, 6, 7)) :=
  find_commensurate_meshes_axiswise.1 1 2 3 5 6 7 (5, 5) (6, 6) (7, 7)
    (by simp [find_commensurate_integers]) (by simp [find_commensurate_integers])
    (by simp [find_commensurate_integers])

/-- Claim C9: for inputs with `dense ≥ 1` and `coarse ≥ 1` and
`include_identical = false`, the recursive call made in the
`dense ≤ coarse` branch strictly increases the first argument (to
`coarse + 1`, which exceeds both `dense` and `coarse`), lands in the
non-recursive search branch, and the whole computation terminates with a
result. -/
theorem find_commensurate_integers_recursion_step (dense coarse : ℕ)
    (hd : 1 ≤ dense) (hc : 1 ≤ coarse) (hdc : dense ≤ coarse) :
    find_commensurate_integers dense coarse false =
      searchBranch (coarse + 1) coarse false ∧
    dense < coarse + 1 ∧ coarse < coarse + 1 ∧
    ∃ p, find_commensurate_integers dense coarse false = some p := by
  have heq := find_le_false dense coarse hdc
  obtain ⟨p, hp, -, -, -, -⟩ :=
    searchBranch_spec (coarse + 1) coarse false hc (Nat.lt_succ_self coarse)
  exact ⟨heq, by omega, Nat.lt_succ_self coarse, p, heq.trans hp⟩

/-- Witness for C9 at `(2, 3)`. -/
theorem find_commensurate_integers_recursion_step_witness :
    find_commensurate_integers 2 3 false = searchBranch (3 + 1) 3 false ∧
    2 < 3 + 1 ∧ 3 < 3 + 1 ∧
    ∃ p, find_commensurate_integers 2 3 false = some p :=
  find_commensurate_integers_recursion_step 2 3 (by decide) (by decide) (by decide)

/-- Claim C10: for `dense > coarse ≥ 1` with `include_identical = true`,
the returned `newDense` never exceeds the baseline candidate
`coarse * ceil(dense / coarse)` (here `(dense + coarse - 1) / coarse` is the
natural-number ceiling of the ratio), hence `newDense < dense + coarse`. -/
theorem find_commensurate_integers_dense_bound (dense coarse : ℕ)
    (hc : 1 ≤ coarse) (hcd : coarse < dense) :
    ∃ p, find_commensurate_integers dense coarse true = some p ∧
      p.1 ≤ coarse * ((dense + coarse - 1) / coarse) ∧ p.1 < dense + coarse := by
  obtain ⟨p, hp, -, -, -, hub⟩ := searchBranch_spec dense coarse true hc hcd
  have h2 := (ceil_bounds dense coarse hc).2
  have h3 : p.1 ≤ dense + coarse - 1 := le_trans hub h2
  exact ⟨p, (find_eq_search dense coarse true (by omega)).trans hp, hub, by omega⟩

/-- Witness for C10 at `(5, 2)`. -/
theorem find_commensurate_integers_dense_bound_witness :
    ∃ p, find_commensurate_integers 5 2 true = some p ∧
      p.1 ≤ 2 * ((5 + 2 - 1) / 2) ∧ p.1 < 5 + 2 :=
  find_commensurate_integers_dense_bound 5 2 (by decide) (by decide)

end Kmesh
